import Mathlib

/-!
Verification of the alfred SQLite TCP server (main.c of Smattr/alfred)
against its natural-language specification.

The protocol engine of the server is shallowly embedded below. Strings on
the wire are `List Char`; machine `uint32_t` arithmetic is `Nat` with an
explicit `% 2 ^ 32`. The query engine (sqlite3_exec) is an opaque parameter
`engine : List Char → EngineResult` reporting the rows it delivers through
the row callback and its final success/error outcome. Socket writes are
numbered consecutively; the outcome of the k-th write is an oracle
`w : Nat → Int` (the return value of `write`), which the server only ever
consults for its verbosity-gated failure log.
-/

/-- Modulus of `uint32_t` arithmetic: the request counter `req` has C type
`uint32_t` (main.c line 242) and `++req` wraps modulo `2 ^ 32`. -/
def uint32Mod : Nat := 4294967296

/-- Chunk size for reading data from the client (`#define BUFFER_SIZE 128`,
main.c line 83). -/
def BUFFER_SIZE : Nat := 128

/-- The `enum response` of main.c lines 116-120: responses that may be
received from alfred. -/
inductive Response where
  | OK
  | ERR
  | DATA
deriving DecidableEq, Repr

/-- Numeric value of each `enum response` constant (main.c lines 116-120:
`OK = 0`, `ERR = -1`, `DATA = 1`). -/
def Response.code : Response → Int
  | .OK => 0
  | .ERR => -1
  | .DATA => 1

/-- One observable action of the server towards the client: a protocol
message write (`transmit`), a prompt write (`SEND_PROMPT`), or the release
of an engine-owned error string (`sqlite3_free(err)`, main.c line 361).
Only the first two are socket writes. -/
inductive Event where
  | msg (id : Nat) (code : Response) (payload : List Char)
  | prompt
  | freeErr (e : List Char)
deriving DecidableEq, Repr

/-- Decimal digit accumulation loop of `printf`-style `%u` rendering:
repeatedly divide by ten, prepending the digit characters.  The first
argument is recursion fuel; eleven units are enough for every value a
`uint32_t` can take. -/
def decimalNatAux : Nat → Nat → List Char → List Char
  | 0, _, acc => acc
  | fuel + 1, n, acc =>
    if n = 0 then acc
    else decimalNatAux fuel (n / 10) (Char.ofNat (48 + n % 10) :: acc)

/-- Decimal rendering of an unsigned value, as `sprintf`'s `%u` conversion
produces it (main.c line 209). -/
def decimalNat (n : Nat) : List Char :=
  if n = 0 then ['0'] else decimalNatAux 11 n []

/-- Decimal rendering of a signed value, as `sprintf`'s `%d` conversion
produces it (main.c line 209). -/
def decimalInt (i : Int) : List Char :=
  if i < 0 then '-' :: decimalNat i.natAbs else decimalNat i.toNat

/-- The byte string built by `transmit` (main.c line 209):
`sprintf(msg, "%u: %d: %s\n", req, code, data)`. -/
def transmitMsg (req : Nat) (code : Response) (data : List Char) : List Char :=
  decimalNat req ++ [':', ' '] ++ decimalInt code.code ++ [':', ' '] ++ data ++ ['\n']

/-- Number of bytes `transmit` allocates for the message (main.c lines
203-208): ten characters for a `uint32_t`, the two separator strings, two
characters for the `enum response`, the payload, and newline plus NUL. -/
def transmitAlloc (data : List Char) : Nat :=
  10 + ([':', ' '] : List Char).length + 2 + ([':', ' '] : List Char).length
    + data.length + 2

/-- Bytes each event puts on the socket.  `freeErr` is not a write. -/
def Event.wireBytes : Event → List Char
  | .msg id code payload => transmitMsg id code payload
  | .prompt => ['>', ' ']
  | .freeErr _ => []

/-- Trace fragment produced by a piece of the server: the events towards
the client, and the indices of writes whose failure was logged by
`dprintf("Error writing to socket.\n")` (main.c line 211). -/
structure Tr where
  evs : List Event
  logs : List Nat
deriving DecidableEq, Repr

/-- The empty trace. -/
def Tr.nil : Tr := ⟨[], []⟩

/-- Concatenation of two trace fragments. -/
def Tr.append (a b : Tr) : Tr := ⟨a.evs ++ b.evs, a.logs ++ b.logs⟩

/-- The body of `transmit` after the message has been formatted (main.c
lines 210-213): perform socket write number `k`; if its result `w k` is
negative, emit the verbosity-gated log line; the result itself is
returned to the caller and ignored there.  Produces the trace fragment of
this single write and the next write index. -/
def transmitStep (w : Nat → Int) (v : Bool) (k : Nat) (id : Nat)
    (code : Response) (data : List Char) : Tr × Nat :=
  (⟨[Event.msg id code data], if w k < 0 ∧ v then [k] else []⟩, k + 1)

/-- One row of query results as handed to `callback` (main.c line 217):
the column names paired with the values, a missing value being SQL NULL. -/
abbrev Row := List (List Char × Option (List Char))

/-- The payload `callback` formats for one column (main.c lines 222-226):
`sprintf(data, "%s = %s", column[i], argv[i] ? argv[i] : "NULL")`. -/
def rowData (col : List Char) (v : Option (List Char)) : List Char :=
  col ++ [' ', '=', ' '] ++ v.getD ['N', 'U', 'L', 'L']

/-- The loop body of `callback` (main.c lines 221-228): for each column in
order, format its payload and `transmit` it as a DATA message carrying the
request ID that arrived through the opaque context pointer. -/
def callbackRun (w : Nat → Int) (v : Bool) (id : Nat) :
    Nat → Row → Tr × Nat
  | k, [] => (Tr.nil, k)
  | k, cv :: rest =>
    let t1 := transmitStep w v k id Response.DATA (rowData cv.1 cv.2)
    let t2 := callbackRun w v id t1.2 rest
    (t1.1.append t2.1, t2.2)

/-- Behaviour of one `sqlite3_exec` call, abstracted: the rows it pushes
through `callback` (in order), and `none` for `SQLITE_OK` or `some e` for
a failure with error text `e`. -/
structure EngineResult where
  rows : List Row
  err : Option (List Char)

/-- All `callback` invocations of one `sqlite3_exec` call: one per row. -/
def rowsRun (w : Nat → Int) (v : Bool) (id : Nat) :
    Nat → List Row → Tr × Nat
  | k, [] => (Tr.nil, k)
  | k, row :: rest =>
    let t1 := callbackRun w v id k row
    let t2 := rowsRun w v id t1.2 rest
    (t1.1.append t2.1, t2.2)

/-- Result state of a server phase: trace, request counter, write index. -/
structure SOut where
  tr : Tr
  req : Nat
  k : Nat
deriving DecidableEq, Repr

/-- Dispatch of one completed frame (main.c lines 354-364): pre-increment
the `uint32_t` request counter, run `sqlite3_exec` with `callback` bound
to the new ID, then either `transmit(req, ERR, err)` followed by
`sqlite3_free(err)` on failure, or `transmit(req, OK, "")` on success. -/
def dispatchRun (w : Nat → Int) (v : Bool) (engine : List Char → EngineResult)
    (req k : Nat) (frame : List Char) : SOut :=
  let req' := (req + 1) % uint32Mod
  let r := engine frame
  let t1 := rowsRun w v req' k r.rows
  match r.err with
  | some e =>
    let t2 := transmitStep w v t1.2 req' Response.ERR e
    ⟨t1.1.append (t2.1.append ⟨[Event.freeErr e], []⟩), req', t2.2⟩
  | none =>
    let t2 := transmitStep w v t1.2 req' Response.OK []
    ⟨t1.1.append t2.1, req', t2.2⟩

/-- The `SEND_PROMPT` macro (main.c lines 127-132): when the prompt flag is
set, write the two bytes `"> "` and explicitly ignore the write result. -/
def promptStep (promptOn : Bool) (k : Nat) : Tr × Nat :=
  if promptOn then (⟨[Event.prompt], []⟩, k + 1) else (Tr.nil, k)

/-- Loop-local state left over by the read loop: trace, request counter,
write index, and the offload buffer contents at the moment `read`
returned a non-positive result. -/
structure LoopOut where
  tr : Tr
  req : Nat
  k : Nat
  buf : List Char
deriving DecidableEq, Repr

/-- The per-connection read loop (main.c lines 333-370).  Each element of
`chunks` is the byte string one successful `read` deposits (at most
`BUFFER_SIZE` bytes; the end of the list is the read that returns zero or
negative).  Bytes are shunted into the offload buffer; if the last byte of
the accumulated buffer is not the newline character the request is still
overflowing and the loop continues; otherwise the buffer is a complete
frame: it is dispatched, the prompt is re-sent, and accumulation restarts
empty. -/
def readLoopRun (w : Nat → Int) (v : Bool) (engine : List Char → EngineResult)
    (promptOn : Bool) : Nat → Nat → List Char → List (List Char) → LoopOut
  | req, k, buf, [] => ⟨Tr.nil, req, k, buf⟩
  | req, k, buf, chunk :: rest =>
    let b := buf ++ chunk
    if b.getLast? = some '\n' then
      let d := dispatchRun w v engine req k b
      let p := promptStep promptOn d.k
      let o := readLoopRun w v engine promptOn d.req p.2 [] rest
      ⟨d.tr.append (p.1.append o.tr), o.req, o.k, o.buf⟩
    else
      readLoopRun w v engine promptOn req k b rest

/-- One accepted connection (main.c lines 330-373): reset the offload
buffer to empty, send the initial prompt, run the read loop; the buffer
left over at disconnect is abandoned. -/
def connectionRun (w : Nat → Int) (v : Bool) (engine : List Char → EngineResult)
    (promptOn : Bool) (req k : Nat) (chunks : List (List Char)) : SOut :=
  let p := promptStep promptOn k
  let o := readLoopRun w v engine promptOn req p.2 [] chunks
  ⟨p.1.append o.tr, o.req, o.k⟩

/-- The outer accept loop (main.c lines 313-374): serve the given
connections one after the other; only `req` and the write numbering flow
from one connection to the next. -/
def serverRun (w : Nat → Int) (v : Bool) (engine : List Char → EngineResult)
    (promptOn : Bool) : Nat → Nat → List (List (List Char)) → SOut
  | req, k, [] => ⟨Tr.nil, req, k⟩
  | req, k, conn :: conns =>
    let o1 := connectionRun w v engine promptOn req k conn
    let o2 := serverRun w v engine promptOn o1.req o1.k conns
    ⟨o1.tr.append o2.tr, o2.req, o2.k⟩

/-- Initial value of the request sequence counter (main.c line 242:
`uint32_t req = 0`). -/
def initialReq : Nat := 0

/-- Whether an event is a terminal protocol message (OK or ERR). -/
def Event.isTerminal : Event → Bool
  | .msg _ .OK _ => true
  | .msg _ .ERR _ => true
  | _ => false

/-- Whether an event is a prompt write. -/
def Event.isPrompt : Event → Bool
  | .prompt => true
  | _ => false

/-- Whether an event puts bytes on the socket: message and prompt writes
do, the release of engine-owned error text does not. -/
def Event.isWire : Event → Bool
  | .freeErr _ => false
  | _ => true

/-- Request IDs of the terminal (OK or ERR) messages of a trace, in
emission order. -/
def terminalIds (evs : List Event) : List Nat :=
  evs.filterMap fun e =>
    match e with
    | .msg id .OK _ => some id
    | .msg id .ERR _ => some id
    | _ => none

/-! ### Specification-side definitions

These follow the wording of the specification (spec.md §4.3 and §8) and are
compared with the definitions embedded from the source. -/

/-- Decimal notation of a natural number as the spec means it: its base-ten
digits, most significant first, rendered as the characters `'0'`-`'9'`;
zero is written `"0"`. -/
def specDecimalNat (n : Nat) : List Char :=
  if n = 0 then ['0'] else ((Nat.digits 10 n).map fun d => Char.ofNat (48 + d)).reverse

/-- Decimal notation of an integer as the spec means it: a minus sign in
front of the magnitude for negative values. -/
def specDecimalInt (i : Int) : List Char :=
  if i < 0 then '-' :: specDecimalNat i.natAbs else specDecimalNat i.toNat

/-- The spec's wire format (spec.md §4.3): `"<id>: <code>: <payload>\n"`
with `<id>` the decimal request ID and `<code>` the decimal status code. -/
def specWireLine (id : Nat) (code : Int) (payload : List Char) : List Char :=
  specDecimalNat id ++ [':', ' '] ++ specDecimalInt code ++ [':', ' ']
    ++ payload ++ ['\n']

/-- The spec's row-column encoding (spec.md §4.3): render
`"<column-name> = <value>"`, with the literal text `NULL` when the value
is null. -/
def specColumnPayload (col : List Char) (v : Option (List Char)) : List Char :=
  col ++ [' ', '=', ' '] ++ (match v with | some s => s | none => ['N', 'U', 'L', 'L'])

/-- The chunk lists through which a request can reach the read loop: a
nonempty sequence of nonempty reads whose concatenation is the request. -/
def Delivers (chunks : List (List Char)) (r : List Char) : Prop :=
  chunks ≠ [] ∧ (∀ c ∈ chunks, c ≠ []) ∧ chunks.flatten = r

/-- A well-formed request as the spec means it: newline-terminated text
whose body contains no further newline. -/
def GoodRequest (r : List Char) : Prop :=
  r.getLast? = some '\n' ∧ '\n' ∉ r.dropLast

/-- Adjacency discipline of prompt writes on the wire, as the spec means
it: a terminal OK/ERR message is immediately followed by a prompt write,
and a prompt write (other than the leading one, constrained separately)
is immediately preceded by a terminal message. -/
def promptRel (e e' : Event) : Prop :=
  (Event.isTerminal e = true → e' = Event.prompt)
    ∧ (Event.isPrompt e' = true → Event.isTerminal e = true)

/-! ### Trace algebra -/

lemma Tr.nil_append (t : Tr) : Tr.nil.append t = t := by
  simp [Tr.nil, Tr.append]

lemma Tr.append_nil (t : Tr) : t.append Tr.nil = t := by
  simp [Tr.nil, Tr.append]

lemma Tr.append_assoc (a b c : Tr) :
    (a.append b).append c = a.append (b.append c) := by
  simp [Tr.append]

lemma Tr.append_evs (a b : Tr) : (a.append b).evs = a.evs ++ b.evs := rfl

/-! ### Decimal rendering agrees with the spec's decimal notation -/

lemma decimalNatAux_zero (fuel : Nat) (acc : List Char) :
    decimalNatAux fuel 0 acc = acc := by
  cases fuel <;> simp [decimalNatAux]

lemma decimalNatAux_digits :
    ∀ (fuel n : Nat) (acc : List Char), n ≠ 0 → n < 10 ^ fuel →
      decimalNatAux fuel n acc
        = ((Nat.digits 10 n).map fun d => Char.ofNat (48 + d)).reverse ++ acc := by
  intro fuel
  induction fuel with
  | zero =>
    intro n acc hn hlt
    simp at hlt
    omega
  | succ f ih =>
    intro n acc hn hlt
    rw [decimalNatAux, if_neg hn,
      Nat.digits_def' (by norm_num : (1 : Nat) < 10) (Nat.pos_of_ne_zero hn)]
    by_cases h10 : n / 10 = 0
    · rw [h10, decimalNatAux_zero, Nat.digits_zero]
      simp
    · rw [ih (n / 10) _ h10
        ((Nat.div_lt_iff_lt_mul (by norm_num)).mpr (by rw [← pow_succ]; exact hlt))]
      simp

lemma decimalNat_eq_spec (n : Nat) (h : n < 10 ^ 11) :
    decimalNat n = specDecimalNat n := by
  unfold decimalNat specDecimalNat
  by_cases hn : n = 0
  · simp [hn]
  · rw [if_neg hn, if_neg hn, decimalNatAux_digits 11 n [] hn h, List.append_nil]

lemma decimalInt_eq_spec (i : Int) (h : i.natAbs < 10 ^ 11) :
    decimalInt i = specDecimalInt i := by
  unfold decimalInt specDecimalInt
  by_cases hi : i < 0
  · rw [if_pos hi, if_pos hi, decimalNat_eq_spec _ h]
  · rw [if_neg hi, if_neg hi, decimalNat_eq_spec]
    calc i.toNat = i.natAbs := by omega
    _ < 10 ^ 11 := h

lemma decimalNatAux_length_le :
    ∀ (fuel n d : Nat) (acc : List Char), n < 10 ^ d →
      (decimalNatAux fuel n acc).length ≤ d + acc.length := by
  intro fuel
  induction fuel with
  | zero =>
    intro n d acc _
    rw [decimalNatAux]
    omega
  | succ f ih =>
    intro n d acc hlt
    rw [decimalNatAux]
    by_cases hn : n = 0
    · rw [if_pos hn]
      omega
    · rw [if_neg hn]
      have hd : d ≠ 0 := by
        rintro rfl
        simp at hlt
        omega
      obtain ⟨e, rfl⟩ : ∃ e, d = e + 1 := ⟨d - 1, by omega⟩
      have := ih (n / 10) e (Char.ofNat (48 + n % 10) :: acc)
        ((Nat.div_lt_iff_lt_mul (by norm_num)).mpr (by rw [← pow_succ]; exact hlt))
      simp only [List.length_cons] at this
      omega

lemma decimalNat_length_le (n : Nat) (h : n < uint32Mod) :
    (decimalNat n).length ≤ 10 := by
  unfold decimalNat
  by_cases hn : n = 0
  · simp [hn]
  · rw [if_neg hn]
    have := decimalNatAux_length_le 11 n 10 []
      (lt_of_lt_of_le h (by norm_num [uint32Mod]))
    simpa using this

lemma decimalInt_code_length_le (c : Response) :
    (decimalInt (Response.code c)).length ≤ 2 := by
  cases c <;> decide

/-! ### Event structure of the engine-facing pieces -/

lemma callbackRun_evs (w : Nat → Int) (v : Bool) (id k : Nat) (row : Row) :
    (callbackRun w v id k row).1.evs
      = row.map fun cv => Event.msg id Response.DATA (rowData cv.1 cv.2) := by
  induction row generalizing k with
  | nil => rfl
  | cons cv rest ih =>
    simp [callbackRun, transmitStep, Tr.append_evs, ih]

lemma rowsRun_evs (w : Nat → Int) (v : Bool) (id k : Nat) (rows : List Row) :
    (rowsRun w v id k rows).1.evs
      = (rows.map fun row =>
          row.map fun cv => Event.msg id Response.DATA (rowData cv.1 cv.2)).flatten := by
  induction rows generalizing k with
  | nil => rfl
  | cons row rest ih =>
    simp [rowsRun, Tr.append_evs, callbackRun_evs, ih]

lemma rowsRun_mem (w : Nat → Int) (v : Bool) (id k : Nat) (rows : List Row) :
    ∀ e ∈ (rowsRun w v id k rows).1.evs,
      ∃ p, e = Event.msg id Response.DATA p := by
  intro e he
  rw [rowsRun_evs] at he
  simp only [List.mem_flatten, List.mem_map] at he
  obtain ⟨l, ⟨row, _, rfl⟩, he⟩ := he
  obtain ⟨cv, _, rfl⟩ := List.mem_map.mp he
  exact ⟨_, rfl⟩

lemma dispatchRun_req (w : Nat → Int) (v : Bool) (engine : List Char → EngineResult)
    (req k : Nat) (frame : List Char) :
    (dispatchRun w v engine req k frame).req = (req + 1) % uint32Mod := by
  cases h : (engine frame).err <;> simp [dispatchRun, h]

lemma dispatchRun_evs (w : Nat → Int) (v : Bool) (engine : List Char → EngineResult)
    (req k : Nat) (frame : List Char) :
    (dispatchRun w v engine req k frame).tr.evs
      = (rowsRun w v ((req + 1) % uint32Mod) k (engine frame).rows).1.evs
        ++ (match (engine frame).err with
            | some e => [Event.msg ((req + 1) % uint32Mod) Response.ERR e,
                         Event.freeErr e]
            | none => [Event.msg ((req + 1) % uint32Mod) Response.OK []]) := by
  cases h : (engine frame).err <;>
    simp [dispatchRun, h, transmitStep, Tr.append_evs]

/-! ### Read-loop unfolding and composition -/

lemma readLoopRun_nil (w : Nat → Int) (v : Bool) (engine : List Char → EngineResult)
    (p : Bool) (req k : Nat) (buf : List Char) :
    readLoopRun w v engine p req k buf [] = ⟨Tr.nil, req, k, buf⟩ := rfl

lemma readLoopRun_cons_complete (w : Nat → Int) (v : Bool)
    (engine : List Char → EngineResult) (p : Bool) (req k : Nat)
    (buf chunk : List Char) (rest : List (List Char))
    (h : (buf ++ chunk).getLast? = some '\n') :
    readLoopRun w v engine p req k buf (chunk :: rest)
      = (let d := dispatchRun w v engine req k (buf ++ chunk)
         let pr := promptStep p d.k
         let o := readLoopRun w v engine p d.req pr.2 [] rest
         ⟨d.tr.append (pr.1.append o.tr), o.req, o.k, o.buf⟩) := by
  rw [readLoopRun]
  simp only [h, if_true]

lemma readLoopRun_cons_incomplete (w : Nat → Int) (v : Bool)
    (engine : List Char → EngineResult) (p : Bool) (req k : Nat)
    (buf chunk : List Char) (rest : List (List Char))
    (h : ¬(buf ++ chunk).getLast? = some '\n') :
    readLoopRun w v engine p req k buf (chunk :: rest)
      = readLoopRun w v engine p req k (buf ++ chunk) rest := by
  rw [readLoopRun]
  simp only [h, if_false, if_neg h]

lemma readLoopRun_append (w : Nat → Int) (v : Bool)
    (engine : List Char → EngineResult) (p : Bool) :
    ∀ (xs ys : List (List Char)) (req k : Nat) (buf : List Char),
      readLoopRun w v engine p req k buf (xs ++ ys)
        = (let o := readLoopRun w v engine p req k buf xs
           let o2 := readLoopRun w v engine p o.req o.k o.buf ys
           ⟨o.tr.append o2.tr, o2.req, o2.k, o2.buf⟩) := by
  intro xs
  induction xs with
  | nil =>
    intro ys req k buf
    simp [readLoopRun_nil, Tr.nil_append]
  | cons c cs ih =>
    intro ys req k buf
    by_cases h : (buf ++ c).getLast? = some '\n'
    · rw [List.cons_append, readLoopRun_cons_complete _ _ _ _ _ _ _ _ _ h,
        readLoopRun_cons_complete _ _ _ _ _ _ _ _ _ h]
      simp only [ih, Tr.append_assoc]
    · rw [List.cons_append, readLoopRun_cons_incomplete _ _ _ _ _ _ _ _ _ h,
        readLoopRun_cons_incomplete _ _ _ _ _ _ _ _ _ h, ih]

/-! ### Frame assembly -/

lemma getLast?_ne_newline_of_proper (b t : List Char) (hb : b ≠ []) (ht : t ≠ [])
    (hint : '\n' ∉ (b ++ t).dropLast) : ¬b.getLast? = some '\n' := by
  intro hlast
  apply hint
  rw [List.dropLast_append_of_ne_nil b ht]
  rw [List.getLast?_eq_getLast b hb] at hlast
  exact List.mem_append_left _ (Option.some_injective _ hlast ▸ List.getLast_mem hb)

lemma readLoopRun_frame (w : Nat → Int) (v : Bool)
    (engine : List Char → EngineResult) (p : Bool) :
    ∀ (chunks rest : List (List Char)) (req k : Nat) (buf r : List Char),
      chunks ≠ [] → (∀ c ∈ chunks, c ≠ []) →
      buf ++ chunks.flatten = r →
      r.getLast? = some '\n' → '\n' ∉ r.dropLast →
      readLoopRun w v engine p req k buf (chunks ++ rest)
        = (let d := dispatchRun w v engine req k r
           let pr := promptStep p d.k
           let o := readLoopRun w v engine p d.req pr.2 [] rest
           ⟨d.tr.append (pr.1.append o.tr), o.req, o.k, o.buf⟩) := by
  intro chunks
  induction chunks with
  | nil =>
    intro rest req k buf r hne
    exact absurd rfl hne
  | cons c cs ih =>
    intro rest req k buf r _ hcs hjoin hlast hint
    cases cs with
    | nil =>
      have hr : buf ++ c = r := by simpa using hjoin
      rw [List.cons_append, List.nil_append,
        readLoopRun_cons_complete _ _ _ _ _ _ _ _ _ (hr ▸ hlast), hr]
    | cons c2 cs2 =>
      have hc : c ≠ [] := hcs c (by simp)
      have hb : buf ++ c ≠ [] := by
        simp only [ne_eq, List.append_eq_nil]
        tauto
      have ht : (c2 :: cs2).flatten ≠ [] := by
        have hc2 : c2 ≠ [] := hcs c2 (by simp)
        simp only [List.flatten_cons, ne_eq, List.append_eq_nil]
        tauto
      have hjoin' : (buf ++ c) ++ (c2 :: cs2).flatten = r := by
        rw [← hjoin]
        simp [List.append_assoc]
      have hnl : ¬(buf ++ c).getLast? = some '\n' :=
        getLast?_ne_newline_of_proper _ _ hb ht (hjoin' ▸ hint)
      rw [List.cons_append, readLoopRun_cons_incomplete _ _ _ _ _ _ _ _ _ hnl]
      exact ih rest req k (buf ++ c) r (by simp) (fun x hx => hcs x (by simp [hx]))
        hjoin' hlast hint

/-! ### Terminal-message bookkeeping -/

lemma terminalIds_append (a b : List Event) :
    terminalIds (a ++ b) = terminalIds a ++ terminalIds b := by
  simp [terminalIds, List.filterMap_append]

lemma terminalIds_rowsRun (w : Nat → Int) (v : Bool) (id k : Nat)
    (rows : List Row) : terminalIds (rowsRun w v id k rows).1.evs = [] := by
  rw [terminalIds, List.filterMap_eq_nil_iff]
  intro e he
  obtain ⟨p, rfl⟩ := rowsRun_mem w v id k rows e he
  rfl

lemma terminalIds_promptStep (p : Bool) (k : Nat) :
    terminalIds (promptStep p k).1.evs = [] := by
  cases p <;> simp [promptStep, Tr.nil, terminalIds]

lemma terminalIds_dispatchRun (w : Nat → Int) (v : Bool)
    (engine : List Char → EngineResult) (req k : Nat) (frame : List Char) :
    terminalIds (dispatchRun w v engine req k frame).tr.evs
      = [(req + 1) % uint32Mod] := by
  rw [dispatchRun_evs, terminalIds_append, terminalIds_rowsRun]
  cases h : (engine frame).err <;> simp [h, terminalIds]

lemma terminalIds_requests (w : Nat → Int) (v : Bool)
    (engine : List Char → EngineResult) (p : Bool) :
    ∀ (rs : List (List Char)) (ds : List (List (List Char))) (req k : Nat),
      List.Forall₂ Delivers ds rs →
      (∀ r ∈ rs, GoodRequest r) →
      terminalIds (readLoopRun w v engine p req k [] ds.flatten).tr.evs
        = (List.range rs.length).map fun i => (req + 1 + i) % uint32Mod := by
  intro rs ds req k hd
  induction hd generalizing req k with
  | nil =>
    intro _
    simp [readLoopRun_nil, Tr.nil, terminalIds]
  | @cons d r ds' rs' h1 _ ih =>
    intro hr
    obtain ⟨hne, hcs, hjoin⟩ := h1
    obtain ⟨hlast, hint⟩ := hr r (by simp)
    rw [List.flatten_cons,
      readLoopRun_frame w v engine p d ds'.flatten req k [] r hne hcs
        (by simpa using hjoin) hlast hint]
    simp only [Tr.append_evs]
    rw [terminalIds_append, terminalIds_append, terminalIds_dispatchRun,
      terminalIds_promptStep, dispatchRun_req,
      ih _ _ (fun x hx => hr x (by simp [hx]))]
    rw [List.length_cons, List.range_succ_eq_map, List.map_cons, List.map_map]
    simp only [List.nil_append, List.singleton_append, Nat.add_zero]
    congr 1
    apply List.map_congr_left
    intro i _
    simp only [Function.comp_apply, Nat.succ_eq_add_one]
    rw [Nat.add_assoc, Nat.mod_add_mod]
    congr 1
    omega

/-! ### Claims C1-C4 -/

/-- Claim C1: for every sequence of N newline-terminated requests sent on a
single connection, the server emits exactly N terminal (OK or ERR)
messages, in the same order as the requests, with request IDs strictly
increasing by 1 (modulo 2^32) starting from the first request ID since
process start.  Each request may be delivered split over arbitrarily many
read chunks. -/
theorem C1_terminal_responses (w : Nat → Int) (v : Bool)
    (engine : List Char → EngineResult) (promptOn : Bool) (req k : Nat)
    (rs : List (List Char)) (ds : List (List (List Char)))
    (hd : List.Forall₂ Delivers ds rs) (hr : ∀ r ∈ rs, GoodRequest r) :
    terminalIds (readLoopRun w v engine promptOn req k [] ds.flatten).tr.evs
      = (List.range rs.length).map fun i => (req + 1 + i) % uint32Mod :=
  terminalIds_requests w v engine promptOn rs ds req k hd hr

/-- Witness for C1: two requests `"a\n"`, `"b\n"`, the first split into
two chunks, give exactly the terminal IDs `[1, 2]`. -/
theorem C1_terminal_responses_witness :
    terminalIds (readLoopRun (fun _ => 1) false (fun _ => ⟨[], none⟩) true 0 0 []
        [['a'], ['\n'], ['b', '\n']]).tr.evs = [1, 2] := by
  have h := C1_terminal_responses (fun _ => 1) false (fun _ => ⟨[], none⟩) true 0 0
    [['a', '\n'], ['b', '\n']] [[['a'], ['\n']], [['b', '\n']]]
    (List.Forall₂.cons (by refine ⟨?_, ?_, ?_⟩ <;> decide)
      (List.Forall₂.cons (by refine ⟨?_, ?_, ?_⟩ <;> decide) List.Forall₂.nil))
    (by intro r hmem; fin_cases hmem <;> exact ⟨by decide, by decide⟩)
  simpa using h

/-- Claim C2: every response line written to the client has the exact form
`"<id>: <code>: <payload>\n"`, where the id is the decimal request ID, the
code is the decimal status code with OK = 0, ERR = -1, DATA = 1, and the
payload is the message-specific text. -/
theorem C2_wire_format (id : Nat) (code : Response) (payload : List Char)
    (hid : id < uint32Mod) :
    (Event.msg id code payload).wireBytes = specWireLine id code.code payload
      ∧ Response.code .OK = 0 ∧ Response.code .ERR = -1
      ∧ Response.code .DATA = 1 := by
  refine ⟨?_, rfl, rfl, rfl⟩
  show transmitMsg id code payload = _
  unfold transmitMsg specWireLine
  rw [decimalNat_eq_spec id (lt_of_lt_of_le hid (by norm_num [uint32Mod])),
    decimalInt_eq_spec _ (by cases code <;> norm_num [Response.code])]

/-- Witness for C2 at id 7, an ERR line with payload `"o"`. -/
theorem C2_wire_format_witness :
    (Event.msg 7 Response.ERR ['o']).wireBytes
        = specWireLine 7 (Response.code .ERR) ['o']
      ∧ Response.code .OK = 0 ∧ Response.code .ERR = -1
      ∧ Response.code .DATA = 1 :=
  C2_wire_format 7 Response.ERR ['o'] (by decide)

/-- Claim C3: for every row delivered by the query engine, each column in
order produces its own DATA message whose payload is
`"<column-name> = <value>"` with the literal text NULL substituted for a
null value; the columns of one row are never concatenated into a single
message, and all these DATA messages carry the originating request's ID. -/
theorem C3_row_encoding (w : Nat → Int) (v : Bool) (id k : Nat) (row : Row) :
    (callbackRun w v id k row).1.evs
        = row.map (fun cv => Event.msg id Response.DATA (specColumnPayload cv.1 cv.2))
      ∧ (callbackRun w v id k row).1.evs.length = row.length := by
  have hpayload : ∀ cv : List Char × Option (List Char),
      rowData cv.1 cv.2 = specColumnPayload cv.1 cv.2 := by
    rintro ⟨c, val⟩
    cases val <;> rfl
  refine ⟨?_, ?_⟩
  · rw [callbackRun_evs]
    exact List.map_congr_left fun cv _ => by rw [hpayload]
  · rw [callbackRun_evs, List.length_map]

lemma rowsRun_filter_terminal (w : Nat → Int) (v : Bool) (id k : Nat)
    (rows : List Row) :
    (rowsRun w v id k rows).1.evs.filter Event.isTerminal = [] := by
  rw [List.filter_eq_nil_iff]
  intro e he
  obtain ⟨p, rfl⟩ := rowsRun_mem w v id k rows e he
  simp [Event.isTerminal]

/-- Claim C4: after the query engine call for a request returns, the
dispatcher writes exactly one terminal message for that request: on
success one OK message with empty payload (and it is the last action of
the dispatch), and on failure one ERR message whose payload is the
engine-supplied diagnostic text, immediately after which the engine-owned
error text is released. -/
theorem C4_terminal_message (w : Nat → Int) (v : Bool)
    (engine : List Char → EngineResult) (req k : Nat) (frame : List Char) :
    match (engine frame).err with
    | none =>
        (dispatchRun w v engine req k frame).tr.evs.filter Event.isTerminal
            = [Event.msg ((req + 1) % uint32Mod) Response.OK []]
          ∧ (dispatchRun w v engine req k frame).tr.evs.getLast?
            = some (Event.msg ((req + 1) % uint32Mod) Response.OK [])
    | some e =>
        (dispatchRun w v engine req k frame).tr.evs.filter Event.isTerminal
            = [Event.msg ((req + 1) % uint32Mod) Response.ERR e]
          ∧ ∃ l, (dispatchRun w v engine req k frame).tr.evs
            = l ++ [Event.msg ((req + 1) % uint32Mod) Response.ERR e,
                    Event.freeErr e] := by
  cases h : (engine frame).err with
  | none =>
    simp only
    constructor
    · rw [dispatchRun_evs, List.filter_append, rowsRun_filter_terminal]
      simp [h, Event.isTerminal]
    · rw [dispatchRun_evs]
      simp only [h]
      exact List.getLast?_concat _
  | some e =>
    simp only
    constructor
    · rw [dispatchRun_evs, List.filter_append, rowsRun_filter_terminal]
      simp [h, Event.isTerminal]
    · exact ⟨(rowsRun w v ((req + 1) % uint32Mod) k (engine frame).rows).1.evs,
        by rw [dispatchRun_evs]; simp [h]⟩

/-! ### Claims C5-C7 -/

/-- Claim C5: a frame is complete exactly when the most recently appended
byte of the accumulated buffer is the newline character; the frame handed
to the dispatcher is the whole buffer including that newline, the
accumulation state is cleared for the next frame, and a request longer
than one 128-byte read chunk is still treated as a single request with a
single ID — chunk boundaries never split a request. -/
theorem C5_frame_completion (w : Nat → Int) (v : Bool)
    (engine : List Char → EngineResult) (p : Bool) :
    (∀ (req k : Nat) (buf chunk : List Char) (rest : List (List Char)),
        ¬(buf ++ chunk).getLast? = some '\n' →
        readLoopRun w v engine p req k buf (chunk :: rest)
          = readLoopRun w v engine p req k (buf ++ chunk) rest)
      ∧ (∀ (req k : Nat) (buf chunk : List Char) (rest : List (List Char)),
          (buf ++ chunk).getLast? = some '\n' →
          readLoopRun w v engine p req k buf (chunk :: rest)
            = (let d := dispatchRun w v engine req k (buf ++ chunk)
               let pr := promptStep p d.k
               let o := readLoopRun w v engine p d.req pr.2 [] rest
               ⟨d.tr.append (pr.1.append o.tr), o.req, o.k, o.buf⟩))
      ∧ (∀ (req k : Nat) (r : List Char) (chunks : List (List Char)),
          Delivers chunks r → GoodRequest r →
          BUFFER_SIZE < r.length →
          (∀ c ∈ chunks, c.length ≤ BUFFER_SIZE) →
          terminalIds (readLoopRun w v engine p req k [] chunks).tr.evs
            = [(req + 1) % uint32Mod]) := by
  refine ⟨?_, ?_, ?_⟩
  · intro req k buf chunk rest h
    exact readLoopRun_cons_incomplete w v engine p req k buf chunk rest h
  · intro req k buf chunk rest h
    exact readLoopRun_cons_complete w v engine p req k buf chunk rest h
  · intro req k r chunks hdel hgood _ _
    obtain ⟨hne, hcs, hjoin⟩ := hdel
    obtain ⟨hlast, hint⟩ := hgood
    rw [← List.append_nil chunks,
      readLoopRun_frame w v engine p chunks [] req k [] r hne hcs
        (by simpa using hjoin) hlast hint]
    simp only [Tr.append_evs]
    rw [terminalIds_append, terminalIds_append, terminalIds_dispatchRun,
      terminalIds_promptStep, readLoopRun_nil]
    simp [Tr.nil, terminalIds]

set_option maxRecDepth 16384 in
/-- Witness for C5: an incomplete chunk is only accumulated, and a
129-byte request arriving in a 128-byte chunk plus a 1-byte chunk yields
exactly one terminal message with one ID. -/
theorem C5_frame_completion_witness :
    (readLoopRun (fun _ => 1) false (fun _ => ⟨[], none⟩) false 0 0 []
        (['a'] :: [['b', '\n']])
      = readLoopRun (fun _ => 1) false (fun _ => ⟨[], none⟩) false 0 0
          (([] : List Char) ++ ['a']) [['b', '\n']])
      ∧ terminalIds (readLoopRun (fun _ => 1) false (fun _ => ⟨[], none⟩) false 0 0 []
          [List.replicate 128 'a', ['\n']]).tr.evs = [(0 + 1) % uint32Mod] :=
  ⟨(C5_frame_completion (fun _ => 1) false (fun _ => ⟨[], none⟩) false).1
      0 0 [] ['a'] [['b', '\n']] (by decide),
   (C5_frame_completion (fun _ => 1) false (fun _ => ⟨[], none⟩) false).2.2
      0 0 (List.replicate 128 'a' ++ ['\n']) [List.replicate 128 'a', ['\n']]
      ⟨by decide, by decide, by decide⟩ ⟨by decide, by decide⟩
      (by decide) (by decide)⟩

lemma readLoopRun_unterminated (w : Nat → Int) (v : Bool)
    (engine : List Char → EngineResult) (p : Bool) :
    ∀ (extra : List (List Char)) (req k : Nat) (buf : List Char),
      (∀ c ∈ extra, c ≠ [] ∧ ¬c.getLast? = some '\n') →
      readLoopRun w v engine p req k buf extra
        = ⟨Tr.nil, req, k, buf ++ extra.flatten⟩ := by
  intro extra
  induction extra with
  | nil =>
    intro req k buf _
    simp [readLoopRun_nil]
  | cons c cs ih =>
    intro req k buf hx
    obtain ⟨hc, hcl⟩ := hx c (by simp)
    have h : ¬(buf ++ c).getLast? = some '\n' := by
      rw [List.getLast?_append_of_ne_nil buf hc]
      exact hcl
    rw [readLoopRun_cons_incomplete w v engine p req k buf c cs h,
      ih req k (buf ++ c) (fun x hx' => hx x (by simp [hx']))]
    simp [List.append_assoc]

/-- Claim C6: when a read returns zero or a negative result while
unterminated bytes are pending, those partially accumulated bytes are
discarded and the connection ends; the next connection starts with an
empty frame buffer, and the request ID counter is not reset — no state
other than the global request sequence counter (and the write numbering)
persists across connections. -/
theorem C6_disconnect_midframe (w : Nat → Int) (v : Bool)
    (engine : List Char → EngineResult) (p : Bool) (req k : Nat)
    (conn : List (List Char)) (rest : List (List (List Char)))
    (extra : List (List Char))
    (hx : ∀ c ∈ extra, c ≠ [] ∧ ¬c.getLast? = some '\n') :
    serverRun w v engine p req k ((conn ++ extra) :: rest)
        = serverRun w v engine p req k (conn :: rest)
      ∧ serverRun w v engine p req k (conn :: rest)
        = (let o1 := connectionRun w v engine p req k conn
           let o2 := serverRun w v engine p o1.req o1.k rest
           ⟨o1.tr.append o2.tr, o2.req, o2.k⟩)
      ∧ (readLoopRun w v engine p req k [] (conn ++ extra)).req
        = (readLoopRun w v engine p req k [] conn).req := by
  have hconn : connectionRun w v engine p req k (conn ++ extra)
      = connectionRun w v engine p req k conn := by
    simp only [connectionRun, readLoopRun_append]
    rw [readLoopRun_unterminated w v engine p extra _ _ _ hx]
    simp [Tr.append_nil]
  refine ⟨?_, rfl, ?_⟩
  · show (let o1 := connectionRun w v engine p req k (conn ++ extra)
          let o2 := serverRun w v engine p o1.req o1.k rest
          ⟨o1.tr.append o2.tr, o2.req, o2.k⟩ : SOut)
        = (let o1 := connectionRun w v engine p req k conn
           let o2 := serverRun w v engine p o1.req o1.k rest
           ⟨o1.tr.append o2.tr, o2.req, o2.k⟩ : SOut)
    rw [hconn]
  · simp only [readLoopRun_append]
    rw [readLoopRun_unterminated w v engine p extra _ _ _ hx]

/-- Witness for C6: a pending unterminated byte `'x'` at disconnect
changes nothing about the served traffic, and the second connection
continues the ID sequence. -/
theorem C6_disconnect_midframe_witness :
    serverRun (fun _ => 1) false (fun _ => ⟨[], none⟩) true 0 0
        [[['a', '\n']] ++ [['x']], [['b', '\n']]]
      = serverRun (fun _ => 1) false (fun _ => ⟨[], none⟩) true 0 0
        [[['a', '\n']], [['b', '\n']]] :=
  (C6_disconnect_midframe (fun _ => 1) false (fun _ => ⟨[], none⟩) true 0 0
    [['a', '\n']] [[['b', '\n']]] [['x']]
    (by intro c hc; fin_cases hc; exact ⟨by decide, by decide⟩)).1

/-- Claim C7: the request counter is a process-wide unsigned 32-bit value
incremented with wrap-around arithmetic before each dispatch, so the
first request after process startup receives ID 1 (not 0), the ID
following 4294967295 is 0, and every message of a dispatch carries the
incremented ID. -/
theorem C7_request_counter (w : Nat → Int) (v : Bool)
    (engine : List Char → EngineResult) (req k : Nat) (frame : List Char) :
    (dispatchRun w v engine req k frame).req = (req + 1) % uint32Mod
      ∧ (dispatchRun w v engine initialReq k frame).req = 1
      ∧ (dispatchRun w v engine 4294967295 k frame).req = 0
      ∧ initialReq = 0
      ∧ ∀ e ∈ (dispatchRun w v engine req k frame).tr.evs, ∀ id c pl,
          e = Event.msg id c pl → id = (req + 1) % uint32Mod := by
  refine ⟨dispatchRun_req w v engine req k frame, ?_, ?_, rfl, ?_⟩
  · rw [dispatchRun_req]
    norm_num [initialReq, uint32Mod]
  · rw [dispatchRun_req]
    norm_num [uint32Mod]
  · intro e he id c pl hmsg
    rw [dispatchRun_evs] at he
    rcases List.mem_append.mp he with hrows | htail
    · obtain ⟨pl', rfl⟩ := rowsRun_mem w v _ k _ e hrows
      injection hmsg with h1 _ _
      exact h1.symm
    · cases h : (engine frame).err with
      | none =>
        rw [h] at htail
        simp only [List.mem_singleton] at htail
        subst htail
        injection hmsg with h1 _ _
        exact h1.symm
      | some err =>
        rw [h] at htail
        rcases List.mem_cons.mp htail with h1 | h2
        · subst h1
          injection hmsg with h1 _ _
          exact h1.symm
        · simp only [List.mem_singleton] at h2
          subst h2
          exact absurd hmsg (by simp)

/-- Witness for C7: the single message of the first dispatch after
startup (an OK under an engine that succeeds without rows) carries ID
`(0 + 1) % 2^32 = 1`. -/
theorem C7_request_counter_witness : (1 : Nat) = (0 + 1) % uint32Mod :=
  (C7_request_counter (fun _ => 1) false (fun _ => ⟨[], none⟩) 0 0 []).2.2.2.2
    (Event.msg 1 Response.OK []) (by decide) 1 Response.OK [] rfl

/-! ### Write-outcome independence (for C8) -/

lemma callbackRun_k (w : Nat → Int) (v : Bool) (id : Nat) :
    ∀ (row : Row) (k : Nat), (callbackRun w v id k row).2 = k + row.length := by
  intro row
  induction row with
  | nil => intro k; rfl
  | cons cv rest ih =>
    intro k
    simp only [callbackRun, transmitStep, ih, List.length_cons]
    omega

lemma rowsRun_k (w : Nat → Int) (v : Bool) (id : Nat) :
    ∀ (rows : List Row) (k : Nat),
      (rowsRun w v id k rows).2 = k + (rows.map List.length).sum := by
  intro rows
  induction rows with
  | nil => intro k; simp [rowsRun]
  | cons row rest ih =>
    intro k
    simp only [rowsRun, callbackRun_k, ih, List.map_cons, List.sum_cons]
    omega

lemma dispatchRun_k (w : Nat → Int) (v : Bool) (engine : List Char → EngineResult)
    (req k : Nat) (frame : List Char) :
    (dispatchRun w v engine req k frame).k
      = k + ((engine frame).rows.map List.length).sum + 1 := by
  cases h : (engine frame).err <;>
    simp [dispatchRun, h, transmitStep, rowsRun_k]

lemma readLoopRun_indep (w w' : Nat → Int) (v v' : Bool)
    (engine : List Char → EngineResult) (p : Bool) :
    ∀ (chunks : List (List Char)) (req k : Nat) (buf : List Char),
      (readLoopRun w v engine p req k buf chunks).tr.evs
          = (readLoopRun w' v' engine p req k buf chunks).tr.evs
        ∧ (readLoopRun w v engine p req k buf chunks).req
          = (readLoopRun w' v' engine p req k buf chunks).req
        ∧ (readLoopRun w v engine p req k buf chunks).k
          = (readLoopRun w' v' engine p req k buf chunks).k
        ∧ (readLoopRun w v engine p req k buf chunks).buf
          = (readLoopRun w' v' engine p req k buf chunks).buf := by
  intro chunks
  induction chunks with
  | nil =>
    intro req k buf
    simp [readLoopRun_nil]
  | cons c cs ih =>
    intro req k buf
    by_cases h : (buf ++ c).getLast? = some '\n'
    · rw [readLoopRun_cons_complete w v engine p req k buf c cs h,
        readLoopRun_cons_complete w' v' engine p req k buf c cs h]
      have hdreq : (dispatchRun w v engine req k (buf ++ c)).req
          = (dispatchRun w' v' engine req k (buf ++ c)).req := by
        rw [dispatchRun_req, dispatchRun_req]
      have hdk : (dispatchRun w v engine req k (buf ++ c)).k
          = (dispatchRun w' v' engine req k (buf ++ c)).k := by
        rw [dispatchRun_k, dispatchRun_k]
      have hdevs : (dispatchRun w v engine req k (buf ++ c)).tr.evs
          = (dispatchRun w' v' engine req k (buf ++ c)).tr.evs := by
        rw [dispatchRun_evs, dispatchRun_evs, rowsRun_evs, rowsRun_evs]
      obtain ⟨ih1, ih2, ih3, ih4⟩ :=
        ih (dispatchRun w' v' engine req k (buf ++ c)).req
          (promptStep p (dispatchRun w' v' engine req k (buf ++ c)).k).2 []
      simp only [Tr.append_evs, hdreq, hdk, hdevs, ih1, ih2, ih3, ih4]
      exact ⟨trivial, trivial, trivial, trivial⟩
    · rw [readLoopRun_cons_incomplete w v engine p req k buf c cs h,
        readLoopRun_cons_incomplete w' v' engine p req k buf c cs h]
      exact ih req k (buf ++ c)

lemma serverRun_indep (w w' : Nat → Int) (v v' : Bool)
    (engine : List Char → EngineResult) (p : Bool) :
    ∀ (conns : List (List (List Char))) (req k : Nat),
      (serverRun w v engine p req k conns).tr.evs
          = (serverRun w' v' engine p req k conns).tr.evs
        ∧ (serverRun w v engine p req k conns).req
          = (serverRun w' v' engine p req k conns).req
        ∧ (serverRun w v engine p req k conns).k
          = (serverRun w' v' engine p req k conns).k := by
  intro conns
  induction conns with
  | nil =>
    intro req k
    simp [serverRun]
  | cons conn rest ih =>
    intro req k
    have hc := readLoopRun_indep w w' v v' engine p conn req (promptStep p k).2 []
    obtain ⟨h1, h2, h3, _⟩ := hc
    obtain ⟨ih1, ih2, ih3⟩ :=
      ih (readLoopRun w' v' engine p req (promptStep p k).2 [] conn).req
        (readLoopRun w' v' engine p req (promptStep p k).2 [] conn).k
    simp only [serverRun, connectionRun, Tr.append_evs, h1, h2, h3, ih1, ih2, ih3]
    exact ⟨trivial, trivial, trivial⟩

/-- Claim C8: a failed attempt to write a response is non-fatal: it is
logged exactly when the write result is negative and verbosity is
enabled, and otherwise ignored; the attempted message is unchanged, and
the whole served traffic and the request counter are independent of the
write outcomes and of verbosity — the connection is never torn down by a
failed write and subsequent rows and requests continue. -/
theorem C8_write_failure (w w' : Nat → Int) (v v' : Bool)
    (engine : List Char → EngineResult) (p : Bool) (req k kw id : Nat)
    (code : Response) (data : List Char) (conns : List (List (List Char))) :
    ((transmitStep w v kw id code data).1.logs
        = if w kw < 0 ∧ v then [kw] else [])
      ∧ ((transmitStep w v kw id code data).1.logs ≠ [] ↔ (w kw < 0 ∧ v = true))
      ∧ (transmitStep w v kw id code data).1.evs = [Event.msg id code data]
      ∧ (serverRun w v engine p req k conns).tr.evs
          = (serverRun w' v' engine p req k conns).tr.evs
      ∧ (serverRun w v engine p req k conns).req
          = (serverRun w' v' engine p req k conns).req := by
  obtain ⟨h1, h2, _⟩ := serverRun_indep w w' v v' engine p conns req k
  refine ⟨rfl, ?_, rfl, h1, h2⟩
  by_cases hc : w kw < 0 ∧ v = true
  · simp [transmitStep, hc]
  · simp only [transmitStep, if_neg hc]
    simpa using hc

/-! ### Prompt accounting (for C9) -/

lemma countP_terminal_rowsRun (w : Nat → Int) (v : Bool) (id k : Nat)
    (rows : List Row) :
    (rowsRun w v id k rows).1.evs.countP Event.isTerminal = 0 := by
  rw [List.countP_eq_zero]
  intro e he
  obtain ⟨p, rfl⟩ := rowsRun_mem w v id k rows e he
  simp [Event.isTerminal]

lemma countP_prompt_rowsRun (w : Nat → Int) (v : Bool) (id k : Nat)
    (rows : List Row) :
    (rowsRun w v id k rows).1.evs.countP Event.isPrompt = 0 := by
  rw [List.countP_eq_zero]
  intro e he
  obtain ⟨p, rfl⟩ := rowsRun_mem w v id k rows e he
  simp [Event.isPrompt]

lemma countP_terminal_dispatchRun (w : Nat → Int) (v : Bool)
    (engine : List Char → EngineResult) (req k : Nat) (frame : List Char) :
    (dispatchRun w v engine req k frame).tr.evs.countP Event.isTerminal = 1 := by
  rw [dispatchRun_evs, List.countP_append, countP_terminal_rowsRun]
  cases h : (engine frame).err <;> simp [h, Event.isTerminal, List.countP_cons]

lemma countP_prompt_dispatchRun (w : Nat → Int) (v : Bool)
    (engine : List Char → EngineResult) (req k : Nat) (frame : List Char) :
    (dispatchRun w v engine req k frame).tr.evs.countP Event.isPrompt = 0 := by
  rw [dispatchRun_evs, List.countP_append, countP_prompt_rowsRun]
  cases h : (engine frame).err <;> simp [h, Event.isPrompt, List.countP_cons]

lemma promptStep_true (k : Nat) : promptStep true k = (⟨[Event.prompt], []⟩, k + 1) := rfl

lemma promptStep_false (k : Nat) : promptStep false k = (Tr.nil, k) := rfl

lemma readLoopRun_prompt_count_true (w : Nat → Int) (v : Bool)
    (engine : List Char → EngineResult) :
    ∀ (chunks : List (List Char)) (req k : Nat) (buf : List Char),
      (readLoopRun w v engine true req k buf chunks).tr.evs.countP Event.isPrompt
        = (readLoopRun w v engine true req k buf chunks).tr.evs.countP
            Event.isTerminal := by
  intro chunks
  induction chunks with
  | nil =>
    intro req k buf
    simp [readLoopRun_nil, Tr.nil]
  | cons c cs ih =>
    intro req k buf
    by_cases h : (buf ++ c).getLast? = some '\n'
    · rw [readLoopRun_cons_complete w v engine true req k buf c cs h]
      simp only [Tr.append_evs, List.countP_append, countP_terminal_dispatchRun,
        countP_prompt_dispatchRun, promptStep_true]
      rw [ih]
      simp [Event.isPrompt, Event.isTerminal, List.countP_cons]
    · rw [readLoopRun_cons_incomplete w v engine true req k buf c cs h]
      exact ih req k (buf ++ c)

lemma readLoopRun_prompt_count_false (w : Nat → Int) (v : Bool)
    (engine : List Char → EngineResult) :
    ∀ (chunks : List (List Char)) (req k : Nat) (buf : List Char),
      (readLoopRun w v engine false req k buf chunks).tr.evs.countP
        Event.isPrompt = 0 := by
  intro chunks
  induction chunks with
  | nil =>
    intro req k buf
    simp [readLoopRun_nil, Tr.nil]
  | cons c cs ih =>
    intro req k buf
    by_cases h : (buf ++ c).getLast? = some '\n'
    · rw [readLoopRun_cons_complete w v engine false req k buf c cs h]
      simp only [Tr.append_evs, List.countP_append, countP_prompt_dispatchRun,
        promptStep_false]
      rw [ih]
      simp [Tr.nil]
    · rw [readLoopRun_cons_incomplete w v engine false req k buf c cs h]
      exact ih req k (buf ++ c)

lemma filter_isWire_prompt :
    List.filter Event.isWire [Event.prompt] = [Event.prompt] := rfl

lemma dispatchRun_wire_shape (w : Nat → Int) (v : Bool)
    (engine : List Char → EngineResult) (req k : Nat) (frame : List Char) :
    ∃ ds t, (dispatchRun w v engine req k frame).tr.evs.filter Event.isWire
        = ds ++ [t]
      ∧ (∀ e ∈ ds, Event.isPrompt e = false ∧ Event.isTerminal e = false)
      ∧ Event.isTerminal t = true ∧ Event.isPrompt t = false := by
  have hrows : (rowsRun w v ((req + 1) % uint32Mod) k (engine frame).rows).1.evs.filter
      Event.isWire
        = (rowsRun w v ((req + 1) % uint32Mod) k (engine frame).rows).1.evs := by
    rw [List.filter_eq_self]
    intro e he
    obtain ⟨p, rfl⟩ := rowsRun_mem w v _ k _ e he
    rfl
  have hds : ∀ e ∈ (rowsRun w v ((req + 1) % uint32Mod) k (engine frame).rows).1.evs,
      Event.isPrompt e = false ∧ Event.isTerminal e = false := by
    intro e he
    obtain ⟨p, rfl⟩ := rowsRun_mem w v _ k _ e he
    exact ⟨rfl, rfl⟩
  cases h : (engine frame).err with
  | none =>
    refine ⟨_, Event.msg ((req + 1) % uint32Mod) Response.OK [], ?_, hds, rfl, rfl⟩
    rw [dispatchRun_evs]
    simp only [h, List.filter_append, hrows]
    rfl
  | some e =>
    refine ⟨_, Event.msg ((req + 1) % uint32Mod) Response.ERR e, ?_, hds, rfl, rfl⟩
    rw [dispatchRun_evs]
    simp only [h, List.filter_append, hrows]
    rfl

lemma filter_isWire_cons_prompt (l : List Event) :
    List.filter Event.isWire (Event.prompt :: l)
      = Event.prompt :: List.filter Event.isWire l := rfl

lemma getLast?_cons_of_ne_nil {α : Type} (a : α) (l : List α) (h : l ≠ []) :
    (a :: l).getLast? = l.getLast? := by
  simpa using List.getLast?_append_of_ne_nil [a] h

lemma readLoopRun_wire_placement (w : Nat → Int) (v : Bool)
    (engine : List Char → EngineResult) :
    ∀ (chunks : List (List Char)) (req k : Nat) (buf : List Char),
      List.Chain' promptRel
          ((readLoopRun w v engine true req k buf chunks).tr.evs.filter Event.isWire)
        ∧ (∀ e, ((readLoopRun w v engine true req k buf chunks).tr.evs.filter
              Event.isWire).head? = some e → Event.isPrompt e = false)
        ∧ ((readLoopRun w v engine true req k buf chunks).tr.evs.filter
              Event.isWire = []
            ∨ ((readLoopRun w v engine true req k buf chunks).tr.evs.filter
                Event.isWire).getLast? = some Event.prompt) := by
  intro chunks
  induction chunks with
  | nil =>
    intro req k buf
    refine ⟨?_, ?_, Or.inl rfl⟩ <;> simp [readLoopRun_nil, Tr.nil]
  | cons c cs ih =>
    intro req k buf
    by_cases h : (buf ++ c).getLast? = some '\n'
    · rw [readLoopRun_cons_complete w v engine true req k buf c cs h]
      simp only [Tr.append_evs, promptStep_true, List.filter_append,
        filter_isWire_prompt]
      obtain ⟨ds, t, hdw, hds, ht, htp⟩ :=
        dispatchRun_wire_shape w v engine req k (buf ++ c)
      rw [hdw]
      obtain ⟨ihC, ihH, ihL⟩ :=
        ih (dispatchRun w v engine req k (buf ++ c)).req
          ((dispatchRun w v engine req k (buf ++ c)).k + 1) []
      refine ⟨?_, ?_, ?_⟩
      · rw [List.chain'_append]
        refine ⟨?_, ?_, ?_⟩
        · rw [List.chain'_append]
          refine ⟨?_, List.chain'_singleton t, ?_⟩
          · exact List.Pairwise.chain'
              (List.pairwise_of_forall_mem_list fun x hx y hy =>
                ⟨fun hterm => absurd hterm (by simp [(hds x hx).2]),
                 fun hp => absurd hp (by simp [(hds y hy).1])⟩)
          · intro x hx y hy
            have hxm : x ∈ ds :=
              List.mem_of_getLast?_eq_some (Option.mem_def.mp hx)
            have hy' : t = y := by simpa using hy
            subst hy'
            exact ⟨fun hterm => absurd hterm (by simp [(hds x hxm).2]),
              fun hp => absurd hp (by simp [htp])⟩
        · rw [List.singleton_append, List.chain'_cons']
          refine ⟨?_, ihC⟩
          intro y hy
          have hyP : Event.isPrompt y = false := ihH y (Option.mem_def.mp hy)
          exact ⟨fun hterm => absurd hterm (by simp [Event.isTerminal]),
            fun hp => absurd hp (by simp [hyP])⟩
        · intro x hx y hy
          have hx' : t = x := by
            rw [List.getLast?_concat] at hx
            simpa using hx
          have hy' : Event.prompt = y := by
            rw [List.singleton_append] at hy
            simpa using hy
          subst hx'
          subst hy'
          exact ⟨fun _ => rfl, fun _ => ht⟩
      · intro e he
        cases ds with
        | nil =>
          simp only [List.nil_append, List.singleton_append, List.head?_cons,
            Option.some.injEq] at he
          rw [← he]
          exact htp
        | cons d0 ds' =>
          simp only [List.cons_append, List.head?_cons, Option.some.injEq] at he
          rw [← he]
          exact (hds d0 (by simp)).1
      · right
        rcases ihL with hL0 | hLlast
        · rw [hL0, List.append_nil, List.getLast?_concat]
        · have hLne : (readLoopRun w v engine true
              (dispatchRun w v engine req k (buf ++ c)).req
              ((dispatchRun w v engine req k (buf ++ c)).k + 1) []
              cs).tr.evs.filter Event.isWire ≠ [] := by
            intro h0
            rw [h0] at hLlast
            exact Option.noConfusion hLlast
          rw [List.getLast?_append_of_ne_nil (ds ++ [t]) (by simp),
            List.getLast?_append_of_ne_nil [Event.prompt] hLne]
          exact hLlast
    · rw [readLoopRun_cons_incomplete w v engine true req k buf c cs h]
      exact ih req k (buf ++ c)

/-- Claim C9: when the prompt is enabled, the 2-byte literal `"> "` is
written exactly once before the first request of each connection (it is
the first event of the connection) and again after each terminal OK/ERR
message — on the wire (the socket writes) the trace starts with a prompt,
ends with a prompt, every terminal message is immediately followed by a
prompt write and every non-leading prompt write is immediately preceded
by a terminal message — so a connection carries one more prompt write
than terminal messages; when disabled, it is never written. -/
theorem C9_prompt_behaviour (w : Nat → Int) (v : Bool)
    (engine : List Char → EngineResult) (req k : Nat)
    (chunks : List (List Char)) :
    (connectionRun w v engine false req k chunks).tr.evs.countP Event.isPrompt = 0
      ∧ (connectionRun w v engine true req k chunks).tr.evs.countP Event.isPrompt
          = 1 + (connectionRun w v engine true req k chunks).tr.evs.countP
              Event.isTerminal
      ∧ (connectionRun w v engine true req k chunks).tr.evs.head?
          = some Event.prompt
      ∧ ((connectionRun w v engine true req k chunks).tr.evs.filter
            Event.isWire).head? = some Event.prompt
      ∧ ((connectionRun w v engine true req k chunks).tr.evs.filter
            Event.isWire).getLast? = some Event.prompt
      ∧ List.Chain' promptRel
          ((connectionRun w v engine true req k chunks).tr.evs.filter
            Event.isWire) := by
  obtain ⟨ihC, ihH, ihL⟩ := readLoopRun_wire_placement w v engine chunks req (k + 1) []
  refine ⟨?_, ?_, ?_, ?_, ?_, ?_⟩
  · simp only [connectionRun, promptStep_false, Tr.append_evs, Tr.nil,
      List.countP_append]
    rw [readLoopRun_prompt_count_false]
    simp
  · simp only [connectionRun, promptStep_true, Tr.append_evs,
      List.countP_append]
    rw [readLoopRun_prompt_count_true]
    simp [Event.isPrompt, Event.isTerminal, List.countP_cons]
  · simp [connectionRun, promptStep_true, Tr.append_evs]
  · simp only [connectionRun, promptStep_true, Tr.append_evs,
      List.singleton_append, filter_isWire_cons_prompt, List.head?_cons]
  · simp only [connectionRun, promptStep_true, Tr.append_evs,
      List.singleton_append, filter_isWire_cons_prompt]
    rcases ihL with hL0 | hLlast
    · rw [hL0]
      rfl
    · have hLne : (readLoopRun w v engine true req (k + 1) []
          chunks).tr.evs.filter Event.isWire ≠ [] := by
        intro h0
        rw [h0] at hLlast
        exact Option.noConfusion hLlast
      rw [getLast?_cons_of_ne_nil Event.prompt _ hLne]
      exact hLlast
  · simp only [connectionRun, promptStep_true, Tr.append_evs,
      List.singleton_append, filter_isWire_cons_prompt]
    rw [List.chain'_cons']
    refine ⟨?_, ihC⟩
    intro y hy
    have hyP : Event.isPrompt y = false := ihH y (Option.mem_def.mp hy)
    exact ⟨fun hterm => absurd hterm (by simp [Event.isTerminal]),
      fun hp => absurd hp (by simp [hyP])⟩

/-! ### Claim C10 -/

/-- Claim C10: for every request ID, status code and payload, the message
buffer `transmit` allocates (ten bytes for the decimal `uint32_t` ID, two
for the decimal code, the two `": "` separators, the payload length, plus
newline and NUL) is at least as large as the NUL-terminated string the
subsequent `sprintf` produces, so the write never exceeds the
allocation. -/
theorem C10_allocation_bound (id : Nat) (code : Response) (data : List Char)
    (hid : id < uint32Mod) :
    (transmitMsg id code data).length + 1 ≤ transmitAlloc data := by
  have h1 := decimalNat_length_le id hid
  have h2 := decimalInt_code_length_le code
  unfold transmitMsg transmitAlloc
  simp only [List.length_append, List.length_cons, List.length_nil]
  omega

/-- Witness for C10 at the largest ID and the widest code. -/
theorem C10_allocation_bound_witness :
    (transmitMsg 4294967295 Response.ERR ['x']).length + 1
      ≤ transmitAlloc ['x'] :=
  C10_allocation_bound 4294967295 Response.ERR ['x'] (by norm_num [uint32Mod])
